import Mathlib

/-!
Shallow embedding of the Sentiment-Analysis app (`src/app.py`).

Text is modelled as `List Char` (a Python `str`); the SQLite `users` table as a
`List User` in row-insertion order (SQLite returns rows of this single-table
scan in rowid order, and `fetchone` takes the first).  Database-touching
operations are state transformers returning the (possibly updated) table
together with their Python return value.  The classifier and the vectorizer of
`predict_sentiment` are opaque callables, modelled as plain functions; the
label array returned by sklearn's `predict` is modelled by the single label
the code reads out of it (`[0]`).
-/

namespace SentimentApp

/-- The character class `[a-zA-Z]` of the `re.sub` in `clean_text`:
ASCII letters only (codepoints 65–90 and 97–122). -/
def isLatinLetter (c : Char) : Bool :=
  (65 ≤ c.toNat && c.toNat ≤ 90) || (97 ≤ c.toNat && c.toNat ≤ 122)

/-- Lowercase ASCII letter (codepoints 97–122). -/
def isLowerLatin (c : Char) : Bool :=
  97 ≤ c.toNat && c.toNat ≤ 122

/-- Whitespace recognized by Python's no-argument `str.split` (ASCII part:
space, tab, linefeed, vertical tab, form feed, carriage return).  Inside
`clean_text` the splitter only ever runs right after the `re.sub` replaced
every non-letter — including every other whitespace codepoint — by `' '`,
so the ASCII set is exact there. -/
def isPySpace (c : Char) : Bool :=
  c = ' ' || c = '\t' || c = '\n' || c = '\r' || c = '\x0b' || c = '\x0c'

/-- The apostrophe character, used by the NLTK stopword entries such as
`don't`. -/
def apos : Char := '\x27'

/-- Helper building a stopword with an inner apostrophe, e.g. `don't`. -/
def withApos (a b : String) : List Char :=
  a.data ++ apos :: b.data

/-- `stopwords.words('english')` of NLTK: the fixed English stopword list the
module loads once at import time into the global `stop_words`. -/
def stop_words : List (List Char) :=
  [ "i".data, "me".data, "my".data, "myself".data, "we".data, "our".data,
    "ours".data, "ourselves".data, "you".data, withApos "you" "re",
    withApos "you" "ve", withApos "you" "ll", withApos "you" "d",
    "your".data, "yours".data, "yourself".data, "yourselves".data,
    "he".data, "him".data, "his".data, "himself".data, "she".data,
    withApos "she" "s", "her".data, "hers".data, "herself".data,
    "it".data, withApos "it" "s", "its".data, "itself".data,
    "they".data, "them".data, "their".data, "theirs".data,
    "themselves".data, "what".data, "which".data, "who".data, "whom".data,
    "this".data, "that".data, withApos "that" "ll", "these".data,
    "those".data, "am".data, "is".data, "are".data, "was".data,
    "were".data, "be".data, "been".data, "being".data, "have".data,
    "has".data, "had".data, "having".data, "do".data, "does".data,
    "did".data, "doing".data, "a".data, "an".data, "the".data, "and".data,
    "but".data, "if".data, "or".data, "because".data, "as".data,
    "until".data, "while".data, "of".data, "at".data, "by".data,
    "for".data, "with".data, "about".data, "against".data,
    "between".data, "into".data, "through".data, "during".data,
    "before".data, "after".data, "above".data, "below".data, "to".data,
    "from".data, "up".data, "down".data, "in".data, "out".data,
    "on".data, "off".data, "over".data, "under".data, "again".data,
    "further".data, "then".data, "once".data, "here".data, "there".data,
    "when".data, "where".data, "why".data, "how".data, "all".data,
    "any".data, "both".data, "each".data, "few".data, "more".data,
    "most".data, "other".data, "some".data, "such".data, "no".data,
    "nor".data, "not".data, "only".data, "own".data, "same".data,
    "so".data, "than".data, "too".data, "very".data, "s".data, "t".data,
    "can".data, "will".data, "just".data, "don".data, withApos "don" "t",
    "should".data, withApos "should" "ve", "now".data, "d".data,
    "ll".data, "m".data, "o".data, "re".data, "ve".data, "y".data,
    "ain".data, "aren".data, withApos "aren" "t", "couldn".data,
    withApos "couldn" "t", "didn".data, withApos "didn" "t",
    "doesn".data, withApos "doesn" "t", "hadn".data, withApos "hadn" "t",
    "hasn".data, withApos "hasn" "t", "haven".data, withApos "haven" "t",
    "isn".data, withApos "isn" "t", "ma".data, "mightn".data,
    withApos "mightn" "t", "mustn".data, withApos "mustn" "t",
    "needn".data, withApos "needn" "t", "shan".data, withApos "shan" "t",
    "shouldn".data, withApos "shouldn" "t", "wasn".data,
    withApos "wasn" "t", "weren".data, withApos "weren" "t", "won".data,
    withApos "won" "t", "wouldn".data, withApos "wouldn" "t" ]

/-- `re.sub('[^a-zA-Z]', ' ', text)`: every character outside `[a-zA-Z]` is
replaced by a single space (the regex matches one character at a time, so the
substitution is a character map). -/
def subNonAlpha (s : List Char) : List Char :=
  s.map (fun c => if isLatinLetter c then c else ' ')

/-- `text.lower()`.  `Char.toLower` is the ASCII case map; inside
`clean_text` it is only applied after `subNonAlpha`, whose output is ASCII,
where it agrees with Python's Unicode `str.lower`. -/
def lowerAll (s : List Char) : List Char :=
  s.map Char.toLower

/-- Worker for `pySplit`: scans the characters, accumulating the current
word in `acc`; a whitespace character or the end of input emits the
accumulated word if it is nonempty. -/
def pySplitAux : List Char → List Char → List (List Char)
  | [], acc => if acc = [] then [] else [acc]
  | c :: cs, acc =>
    if isPySpace c then
      if acc = [] then pySplitAux cs [] else acc :: pySplitAux cs []
    else
      pySplitAux cs (acc ++ [c])

/-- Python's no-argument `text.split()`: maximal runs of non-whitespace
characters, with no empty words. -/
def pySplit (s : List Char) : List (List Char) :=
  pySplitAux s []

/-- `clean_text` of `src/app.py`: replace non-letters by spaces, lowercase,
split on whitespace, drop stopwords, rejoin with single spaces. -/
def clean_text (s : List Char) : List Char :=
  List.intercalate [' ']
    ((pySplit (lowerAll (subNonAlpha s))).filter
      (fun w => !decide (w ∈ stop_words)))

/-- A row of the SQLite table
`users(username TEXT PRIMARY KEY, name TEXT, password TEXT)`, in `SELECT *`
column order. -/
structure User where
  username : String
  name : String
  password : String
deriving DecidableEq, Repr

/-- `register_user` of `src/app.py`.  The `INSERT` raises
`sqlite3.IntegrityError` exactly when the `username` PRIMARY KEY (default
BINARY collation: byte-exact comparison) is already present; the handler
then returns `(False, "Username already exists.")` and the table is
unchanged; otherwise the new row is appended and committed and the function
returns `(True, "User registered successfully.")`.  The result is the
updated table paired with the Python return value. -/
def register_user (db : List User) (username name password : String) :
    List User × Bool × String :=
  if db.any (fun r => r.username == username) then
    (db, false, "Username already exists.")
  else
    (db ++ [⟨username, name, password⟩], true, "User registered successfully.")

/-- `login_user` of `src/app.py`:
`SELECT * FROM users WHERE username = ? AND password = ?` followed by
`fetchone`.  SQLite's `=` on these TEXT columns is the default BINARY
collation, i.e. exact case-sensitive string equality, and `fetchone`
returns the first matching row in scan (insertion) order, or `None`.  The
statement modifies nothing, so the state component is the table itself. -/
def login_user (db : List User) (username password : String) :
    List User × Option User :=
  (db, db.find? (fun r => r.username == username && r.password == password))

/-- `predict_sentiment` of `src/app.py`: clean the text, vectorize it,
run the classifier, and map the raw label to a string,
`"Positive" if prediction == 1 else "Negative"`.  `vectorizer` stands for
`lambda t: vectorizer.transform([t])` and `model` for
`lambda v: model.predict(v)[0]`. -/
def predict_sentiment {V : Type} (text : List Char)
    (model : V → Int) (vectorizer : List Char → V) : String :=
  if model (vectorizer (clean_text text)) = 1 then "Positive" else "Negative"

/-- The fixed output convention of the predictor, as a function of the
classifier's raw output alone: label `1` is `"Positive"`, every other raw
label is `"Negative"`. -/
def label_of_raw (raw : Int) : String :=
  if raw = 1 then "Positive" else "Negative"

/-- The outcome of `scraper.get_tweets(username, mode='user', number=5)` as
`get_tweets` observes it: the value of `tweets_data.get('tweets', [])`,
i.e. `some` list of tweet texts when the response dictionary has a
`'tweets'` key, `none` (a failed or empty response) otherwise. -/
abbrev FetchResult := Option (List (List Char))

/-- `get_tweets` of `src/app.py`: an empty list when the scraper module is
not importable (`SCRAPER_AVAILABLE` false); otherwise the `'text'` field of
each entry under the response's `'tweets'` key, defaulting to the empty
list when the key is absent. -/
def get_tweets (scraperAvailable : Bool) (fetchResult : FetchResult) :
    List (List Char) :=
  if !scraperAvailable then []
  else
    match fetchResult with
    | none => []
    | some tweets => tweets

/-- What the tweets branch of `run_sentiment_analysis` renders: a warning
(`st.warning`), an informational message (`st.info`), or one color-coded
prediction per tweet (`st.markdown` in the loop). -/
inductive TweetsOutcome where
  | warning : String → TweetsOutcome
  | info : String → TweetsOutcome
  | results : List (List Char × String) → TweetsOutcome
deriving DecidableEq, Repr

/-- The `"Analyze tweets from username"` branch of `run_sentiment_analysis`
in `src/app.py`: warn and return when the scraper module is missing;
otherwise fetch, and either render one prediction per tweet or an
informational empty-result message. -/
def run_sentiment_analysis_tweets {V : Type} (scraperAvailable : Bool)
    (fetchResult : FetchResult) (model : V → Int)
    (vectorizer : List Char → V) : TweetsOutcome :=
  if !scraperAvailable then
    .warning "Nitter module not installed. Twitter scraping unavailable."
  else
    match get_tweets scraperAvailable fetchResult with
    | [] => .info "No tweets found or failed to fetch."
    | t :: ts => .results ((t :: ts).map
        (fun tw => (tw, predict_sentiment tw model vectorizer)))

/-! ### Helper lemmas: `List.intercalate` -/

theorem icl_single {α : Type} (sep a : List α) : List.intercalate sep [a] = a := by
  simp [List.intercalate]

theorem icl_cons2 {α : Type} (sep a b : List α) (tl : List (List α)) :
    List.intercalate sep (a :: b :: tl) = a ++ sep ++ List.intercalate sep (b :: tl) := by
  simp [List.intercalate, List.intersperse_cons_cons, List.append_assoc]

theorem mem_icl {α : Type} {c : α} {sep : List α} {xs : List (List α)}
    (h : c ∈ List.intercalate sep xs) : c ∈ sep ∨ ∃ t ∈ xs, c ∈ t := by
  induction xs with
  | nil => simp [List.intercalate] at h
  | cons a tl ih =>
    cases tl with
    | nil =>
      rw [icl_single] at h
      exact Or.inr ⟨a, by simp, h⟩
    | cons b tl2 =>
      rw [icl_cons2] at h
      rcases List.mem_append.1 h with h1 | h2
      · rcases List.mem_append.1 h1 with ha | hs
        · exact Or.inr ⟨a, by simp, ha⟩
        · exact Or.inl hs
      · rcases ih h2 with hs | ⟨t, ht, hc⟩
        · exact Or.inl hs
        · exact Or.inr ⟨t, by simp [ht], hc⟩

theorem map_id_of_eq {α : Type} {f : α → α} {l : List α} (h : ∀ c ∈ l, f c = c) :
    l.map f = l := by
  induction l with
  | nil => rfl
  | cons a tl ih =>
    rw [List.map_cons, h a (List.mem_cons_self a tl),
      ih (fun x hx => h x (List.mem_cons_of_mem a hx))]

/-! ### Helper lemmas: the splitter -/

theorem pySplitAux_mem {t : List Char} :
    ∀ {s acc : List Char}, t ∈ pySplitAux s acc →
      t ≠ [] ∧ ∀ c ∈ t, c ∈ acc ∨ (c ∈ s ∧ isPySpace c = false) := by
  intro s
  induction s with
  | nil =>
    intro acc ht
    by_cases hacc : acc = []
    · simp [pySplitAux, hacc] at ht
    · simp only [pySplitAux, if_neg hacc, List.mem_singleton] at ht
      subst ht
      exact ⟨hacc, fun c hc => Or.inl hc⟩
  | cons c cs ih =>
    intro acc ht
    by_cases hc : isPySpace c
    · rw [pySplitAux, if_pos hc] at ht
      have fromRec : t ∈ pySplitAux cs [] →
          t ≠ [] ∧ ∀ d ∈ t, d ∈ acc ∨ (d ∈ c :: cs ∧ isPySpace d = false) := by
        intro hrec
        obtain ⟨h1, h2⟩ := ih hrec
        refine ⟨h1, fun d hd => ?_⟩
        rcases h2 d hd with h | ⟨hin, hns⟩
        · simp at h
        · exact Or.inr ⟨List.mem_cons_of_mem c hin, hns⟩
      by_cases hacc : acc = []
      · rw [if_pos hacc] at ht
        exact fromRec ht
      · rw [if_neg hacc, List.mem_cons] at ht
        rcases ht with rfl | ht
        · exact ⟨hacc, fun d hd => Or.inl hd⟩
        · exact fromRec ht
    · rw [pySplitAux, if_neg hc] at ht
      obtain ⟨h1, h2⟩ := ih ht
      refine ⟨h1, fun d hd => ?_⟩
      rcases h2 d hd with h | ⟨hin, hns⟩
      · rcases List.mem_append.1 h with h | h
        · exact Or.inl h
        · rw [List.mem_singleton] at h
          subst h
          exact Or.inr ⟨List.mem_cons_self d cs, Bool.not_eq_true _ ▸ hc⟩
      · exact Or.inr ⟨List.mem_cons_of_mem c hin, hns⟩

theorem pySplitAux_word {w : List Char} (hw : ∀ c ∈ w, isPySpace c = false) :
    ∀ (rest acc : List Char), pySplitAux (w ++ rest) acc = pySplitAux rest (acc ++ w) := by
  induction w with
  | nil => intro rest acc; rw [List.nil_append, List.append_nil]
  | cons c cs ih =>
    intro rest acc
    have hc : isPySpace c = false := hw c (List.mem_cons_self c cs)
    rw [List.cons_append, pySplitAux, if_neg (by simp [hc]),
      ih (fun x hx => hw x (List.mem_cons_of_mem c hx)) rest (acc ++ [c]),
      List.append_cons acc c cs]

theorem pySplit_intercalate :
    ∀ {toks : List (List Char)},
      (∀ t ∈ toks, t ≠ [] ∧ ∀ c ∈ t, isPySpace c = false) →
      pySplit (List.intercalate [' '] toks) = toks := by
  intro toks
  induction toks with
  | nil => intro _; rfl
  | cons a tl ih =>
    intro h
    have ha := h a (List.mem_cons_self a tl)
    cases tl with
    | nil =>
      rw [icl_single, pySplit, ← List.append_nil a, pySplitAux_word ha.2 [] [],
        List.nil_append, pySplitAux, if_neg ha.1]
      simp
    | cons b tl2 =>
      rw [icl_cons2, pySplit, List.append_assoc, pySplitAux_word ha.2, List.nil_append,
        List.singleton_append, pySplitAux, if_pos (by decide), if_neg ha.1]
      have := ih (fun t ht => h t (List.mem_cons_of_mem a ht))
      rw [pySplit] at this
      rw [this]

/-! ### Helper lemmas: character classes and `Char.toLower` -/

theorem toLower_of_not_upper {c : Char} (h : ¬(65 ≤ c.toNat ∧ c.toNat ≤ 90)) :
    c.toLower = c := by
  simp only [Char.toLower]
  rw [if_neg h]

theorem toLower_toNat_of_upper {c : Char} (h65 : 65 ≤ c.toNat) (h90 : c.toNat ≤ 90) :
    c.toLower.toNat = c.toNat + 32 := by
  have hv : (c.toNat + 32).isValidChar := Or.inl (by omega)
  simp only [Char.toLower]
  rw [if_pos ⟨h65, h90⟩, Char.ofNat, dif_pos hv]
  rfl

theorem lower_or_space_of_mem {s : List Char} {c : Char}
    (hc : c ∈ lowerAll (subNonAlpha s)) : isLowerLatin c = true ∨ c = ' ' := by
  simp only [lowerAll, subNonAlpha, List.mem_map] at hc
  obtain ⟨d, ⟨e, _, rfl⟩, rfl⟩ := hc
  by_cases hl : isLatinLetter e = true
  · rw [if_pos hl]
    simp only [isLatinLetter, Bool.or_eq_true, Bool.and_eq_true, decide_eq_true_eq] at hl
    left
    simp only [isLowerLatin, Bool.and_eq_true, decide_eq_true_eq]
    rcases hl with ⟨h1, h2⟩ | ⟨h1, h2⟩
    · rw [toLower_toNat_of_upper h1 h2]
      omega
    · rw [toLower_of_not_upper (by omega)]
      omega
  · rw [if_neg hl]
    right
    decide

theorem lower_not_space {c : Char} (h : isLowerLatin c = true) : isPySpace c = false := by
  cases hb : isPySpace c
  · rfl
  · exfalso
    simp only [isPySpace, Bool.or_eq_true, decide_eq_true_eq] at hb
    rcases hb with ((((h1 | h2) | h3) | h4) | h5) | h6 <;> subst_vars <;>
      exact absurd h (by decide)

theorem lower_is_latin {c : Char} (h : isLowerLatin c = true) : isLatinLetter c = true := by
  simp only [isLowerLatin, Bool.and_eq_true, decide_eq_true_eq] at h
  simp only [isLatinLetter, Bool.or_eq_true, Bool.and_eq_true, decide_eq_true_eq]
  omega

theorem toLower_of_lower_or_space {c : Char} (h : isLowerLatin c = true ∨ c = ' ') :
    c.toLower = c := by
  rcases h with h | rfl
  · simp only [isLowerLatin, Bool.and_eq_true, decide_eq_true_eq] at h
    exact toLower_of_not_upper (by omega)
  · decide

/-! ### Helper lemmas: the cleaned token list -/

/-- The token list of a cleaned string: the non-stopword words of the
substituted, lowered input. -/
def cleanTokens (s : List Char) : List (List Char) :=
  (pySplit (lowerAll (subNonAlpha s))).filter (fun w => !decide (w ∈ stop_words))

theorem clean_text_eq_icl (s : List Char) :
    clean_text s = List.intercalate [' '] (cleanTokens s) := rfl

theorem cleanTokens_sound {s t : List Char} (ht : t ∈ cleanTokens s) :
    t ≠ [] ∧ (∀ c ∈ t, isLowerLatin c = true) ∧ t ∉ stop_words := by
  rw [cleanTokens, List.mem_filter] at ht
  obtain ⟨h1, h2⟩ := ht
  rw [pySplit] at h1
  obtain ⟨hne, hmem⟩ := pySplitAux_mem h1
  refine ⟨hne, fun c hc => ?_, by simpa using h2⟩
  rcases hmem c hc with h | ⟨hin, hns⟩
  · simp at h
  · rcases lower_or_space_of_mem hin with hl | rfl
    · exact hl
    · exact absurd hns (by decide)

theorem clean_text_chars {s : List Char} {c : Char} (hc : c ∈ clean_text s) :
    isLowerLatin c = true ∨ c = ' ' := by
  rw [clean_text_eq_icl] at hc
  rcases mem_icl hc with hsep | ⟨t, ht, hc2⟩
  · right
    simpa using hsep
  · exact Or.inl ((cleanTokens_sound ht).2.1 c hc2)

theorem clean_text_idem_aux (s : List Char) :
    clean_text (clean_text s) = clean_text s := by
  have h1 : subNonAlpha (clean_text s) = clean_text s :=
    map_id_of_eq (fun c hc => by
      rcases clean_text_chars hc with h | rfl
      · rw [if_pos (lower_is_latin h)]
      · rfl)
  have h2 : lowerAll (clean_text s) = clean_text s :=
    map_id_of_eq (fun c hc => toLower_of_lower_or_space (clean_text_chars hc))
  have h3 : pySplit (clean_text s) = cleanTokens s := by
    rw [clean_text_eq_icl]
    exact pySplit_intercalate (fun t ht =>
      ⟨(cleanTokens_sound ht).1,
        fun c hc => lower_not_space ((cleanTokens_sound ht).2.1 c hc)⟩)
  have h4 : (cleanTokens s).filter (fun w => !decide (w ∈ stop_words)) = cleanTokens s :=
    List.filter_eq_self.2 (fun t ht => by simpa using (cleanTokens_sound ht).2.2)
  calc clean_text (clean_text s)
      = List.intercalate [' ']
          ((pySplit (lowerAll (subNonAlpha (clean_text s)))).filter
            (fun w => !decide (w ∈ stop_words))) := rfl
    _ = clean_text s := by rw [h1, h2, h3, h4, ← clean_text_eq_icl]

/-! ### Helper lemmas: relating the scanner to `List.splitOnP` -/

theorem modifyHead_nil_append (l : List (List Char)) :
    l.modifyHead (fun t => [] ++ t) = l := by
  cases l <;> simp

theorem pySplitAux_splitOnP (s : List Char) :
    ∀ acc, pySplitAux s acc =
      ((List.splitOnP isPySpace s).modifyHead (fun t => acc ++ t)).filter
        (fun t => !decide (t = [])) := by
  induction s with
  | nil =>
    intro acc
    rw [List.splitOnP_nil]
    by_cases h : acc = []
    · simp [pySplitAux, h]
    · simp [pySplitAux, h]
  | cons c cs ih =>
    intro acc
    rw [List.splitOnP_cons]
    by_cases hc : isPySpace c
    · rw [if_pos hc, pySplitAux, if_pos hc]
      simp only [List.modifyHead_cons, List.append_nil, List.filter_cons]
      by_cases ha : acc = []
      · rw [if_pos ha, ih [], modifyHead_nil_append]
        simp [ha]
      · rw [if_neg ha, ih [], modifyHead_nil_append]
        simp [ha]
    · rw [if_neg hc, pySplitAux, if_neg hc, ih (acc ++ [c]),
        List.modifyHead_modifyHead]
      have hfun : ((fun t => acc ++ t) ∘ (fun t => c :: t)) =
          (fun t : List Char => (acc ++ [c]) ++ t) := by
        funext t
        simp
      rw [hfun]

theorem pySplit_splitOnP (s : List Char) :
    pySplit s = (List.splitOnP isPySpace s).filter (fun t => !decide (t = [])) := by
  rw [pySplit, pySplitAux_splitOnP s [], modifyHead_nil_append]

/-- The cleaning pipeline exactly as the specification words it: replace
every character outside the Latin alphabet with a space, lower-case, split
on whitespace (no empty words), drop the tokens belonging to the fixed
English stopword set, and rejoin the surviving tokens with single spaces. -/
def clean_spec (s : List Char) : List Char :=
  List.intercalate [' ']
    (((((s.map (fun c => if isLatinLetter c then c else ' ')).map
          Char.toLower).splitOnP isPySpace).filter
        (fun w => !decide (w = []))).filter
      (fun w => !decide (w ∈ stop_words)))

theorem clean_text_eq_spec (s : List Char) : clean_text s = clean_spec s := by
  rw [clean_spec, ← lowerAll, ← subNonAlpha, ← pySplit_splitOnP, ← clean_text]

/-! ### Claim theorems -/

/-- C1: `login_user u p` returns a user record iff the users table contains a
stored record whose username equals `u` and whose password equals `p`, with
exact case-sensitive string equality on both fields; any mismatch (wrong
password or unknown username) returns nothing, and a returned record is such
a stored matching record. -/
theorem login_user_match_iff (db : List User) (u p : String) :
    ((login_user db u p).2.isSome ↔ ∃ r ∈ db, r.username = u ∧ r.password = p) ∧
    ∀ r, (login_user db u p).2 = some r →
      r ∈ db ∧ r.username = u ∧ r.password = p := by
  constructor
  · simp only [login_user, List.find?_isSome, Bool.and_eq_true, beq_iff_eq]
  · intro r hr
    simp only [login_user] at hr
    have h1 := List.find?_some hr
    have h2 := List.mem_of_find?_eq_some hr
    simp only [Bool.and_eq_true, beq_iff_eq] at h1
    exact ⟨h2, h1.1, h1.2⟩

theorem login_user_match_iff_witness :
    (((login_user [⟨"alice", "Alice", "pw1"⟩] "alice" "pw1").2.isSome ↔
        ∃ r ∈ [(⟨"alice", "Alice", "pw1"⟩ : User)],
          r.username = "alice" ∧ r.password = "pw1") ∧
      ∀ r, (login_user [⟨"alice", "Alice", "pw1"⟩] "alice" "pw1").2 = some r →
        r ∈ [(⟨"alice", "Alice", "pw1"⟩ : User)] ∧
          r.username = "alice" ∧ r.password = "pw1") :=
  login_user_match_iff [⟨"alice", "Alice", "pw1"⟩] "alice" "pw1"

/-- C2: starting from a table without username `u`, the first `register_user`
call for `u` succeeds, a second call for `u` (with any field values) fails
with the `AlreadyExists` message, the failing call changes no state, and a
lookup of `u` afterwards still yields exactly the first call's name and
password. -/
theorem register_user_duplicate (db : List User) (u n1 p1 n2 p2 : String)
    (h : ∀ r ∈ db, r.username ≠ u) :
    (register_user db u n1 p1).2.1 = true ∧
    (register_user (register_user db u n1 p1).1 u n2 p2).2.1 = false ∧
    (register_user (register_user db u n1 p1).1 u n2 p2).2.2 =
      "Username already exists." ∧
    (register_user (register_user db u n1 p1).1 u n2 p2).1 =
      (register_user db u n1 p1).1 ∧
    ((register_user (register_user db u n1 p1).1 u n2 p2).1).find?
      (fun r => r.username == u) = some ⟨u, n1, p1⟩ := by
  have hany : db.any (fun r => r.username == u) = false := by
    rw [List.any_eq_false]
    intro r hr
    simp [h r hr]
  have hdb1 : (register_user db u n1 p1).1 = db ++ [⟨u, n1, p1⟩] := by
    rw [register_user, if_neg (by simp [hany])]
  have hok1 : (register_user db u n1 p1).2.1 = true := by
    rw [register_user, if_neg (by simp [hany])]
  have hany2 : (db ++ [(⟨u, n1, p1⟩ : User)]).any (fun r => r.username == u) = true := by
    simp
  have hsecond : register_user (register_user db u n1 p1).1 u n2 p2 =
      ((register_user db u n1 p1).1, false, "Username already exists.") := by
    rw [hdb1, register_user, if_pos (by simp [hany2])]
  refine ⟨hok1, by rw [hsecond], by rw [hsecond], by rw [hsecond], ?_⟩
  rw [hsecond, hdb1, List.find?_append]
  have hnone : db.find? (fun r => r.username == u) = none := by
    rw [List.find?_eq_none]
    intro r hr
    simp [h r hr]
  rw [hnone]
  simp [List.find?]

theorem register_user_duplicate_witness :
    (register_user [] "alice" "Alice" "pw1").2.1 = true ∧
    (register_user (register_user [] "alice" "Alice" "pw1").1 "alice" "Bob" "pw2").2.1
      = false ∧
    (register_user (register_user [] "alice" "Alice" "pw1").1 "alice" "Bob" "pw2").2.2
      = "Username already exists." ∧
    (register_user (register_user [] "alice" "Alice" "pw1").1 "alice" "Bob" "pw2").1
      = (register_user [] "alice" "Alice" "pw1").1 ∧
    ((register_user (register_user [] "alice" "Alice" "pw1").1 "alice" "Bob" "pw2").1).find?
      (fun r => r.username == "alice") = some ⟨"alice", "Alice", "pw1"⟩ :=
  register_user_duplicate [] "alice" "Alice" "pw1" "Bob" "pw2" (by simp)

/-- C3: `predict_sentiment` returns `"Positive"` exactly when the
classifier's raw output on the vectorized cleaned text equals `1`, and
`"Negative"` for every other raw output. -/
theorem predict_sentiment_convention {V : Type} (t : List Char) (m : V → Int)
    (v : List Char → V) :
    (predict_sentiment t m v = "Positive" ↔ m (v (clean_text t)) = 1) ∧
    (predict_sentiment t m v = "Negative" ↔ m (v (clean_text t)) ≠ 1) := by
  rw [predict_sentiment]
  by_cases h : m (v (clean_text t)) = 1 <;> simp [h]

theorem predict_sentiment_convention_witness :
    (predict_sentiment "good".data (fun r => r) (fun _ => (0 : Int)) = "Positive" ↔
      (fun r : Int => r) ((fun _ => (0 : Int)) (clean_text "good".data)) = 1) ∧
    (predict_sentiment "good".data (fun r => r) (fun _ => (0 : Int)) = "Negative" ↔
      (fun r : Int => r) ((fun _ => (0 : Int)) (clean_text "good".data)) ≠ 1) :=
  predict_sentiment_convention "good".data (fun r => r) (fun _ => (0 : Int))

/-- C4: `get_tweets` returns the empty sequence whenever the scraping
capability is unavailable, the remote call fails (no `'tweets'` key in the
response), or the fetch yields zero items; and in the tweets branch of the
analysis sub-flow an empty fetch renders the informational empty-result
message (zero predictions), while an unavailable scraper renders only a
warning — never a hard error. -/
theorem get_tweets_best_effort {V : Type} (sa : Bool) (fr : FetchResult)
    (m : V → Int) (v : List Char → V)
    (h : sa = false ∨ fr = none ∨ fr = some []) :
    get_tweets sa fr = [] ∧
    (sa = true → run_sentiment_analysis_tweets sa fr m v =
      TweetsOutcome.info "No tweets found or failed to fetch.") ∧
    (sa = false → run_sentiment_analysis_tweets sa fr m v =
      TweetsOutcome.warning "Nitter module not installed. Twitter scraping unavailable.") := by
  have hempty : get_tweets sa fr = [] := by
    rcases h with rfl | rfl | rfl
    · rfl
    · cases sa <;> rfl
    · cases sa <;> rfl
  refine ⟨hempty, fun hsa => ?_, fun hsa => ?_⟩
  · subst hsa
    rw [run_sentiment_analysis_tweets, hempty]
    rfl
  · subst hsa
    rfl

theorem get_tweets_best_effort_witness :
    get_tweets true (some []) = [] ∧
    (true = true → run_sentiment_analysis_tweets true (some [])
        (fun r : Int => r) (fun _ => (0 : Int)) =
      TweetsOutcome.info "No tweets found or failed to fetch.") ∧
    (true = false → run_sentiment_analysis_tweets true (some [])
        (fun r : Int => r) (fun _ => (0 : Int)) =
      TweetsOutcome.warning "Nitter module not installed. Twitter scraping unavailable.") :=
  get_tweets_best_effort true (some []) (fun r => r) (fun _ => (0 : Int))
    (Or.inr (Or.inr rfl))

/-- C5: `clean_text` equals the specified composition — replace every
character outside the Latin alphabet with a space, lower-case, split on
whitespace, drop the tokens in the fixed English stopword set, rejoin with
single spaces — and in particular maps `"Hello World! 123"` to
`"hello world"`. -/
theorem clean_text_matches_spec :
    (∀ s : List Char, clean_text s = clean_spec s) ∧
    clean_text "Hello World! 123".data = "hello world".data :=
  ⟨clean_text_eq_spec, by decide⟩

/-- C6: `clean_text` is idempotent: cleaning an already cleaned string
changes nothing. -/
theorem clean_text_idempotent (s : List Char) :
    clean_text (clean_text s) = clean_text s :=
  clean_text_idem_aux s

theorem clean_text_idempotent_witness :
    clean_text (clean_text "The Cat and dogs!".data) =
      clean_text "The Cat and dogs!".data :=
  clean_text_idempotent "The Cat and dogs!".data

/-- C7: an input that is empty, or all of whose tokens (after stripping
non-Latin characters and lower-casing) belong to the stopword set, cleans
to the empty string. -/
theorem clean_text_all_stopwords_empty (s : List Char)
    (h : s = [] ∨ ∀ t ∈ pySplit (lowerAll (subNonAlpha s)), t ∈ stop_words) :
    clean_text s = [] := by
  rcases h with rfl | h
  · rfl
  · rw [clean_text_eq_icl]
    have hnil : cleanTokens s = [] := by
      rw [cleanTokens, List.filter_eq_nil_iff]
      intro t ht
      simp [h t ht]
    rw [hnil]
    rfl

theorem clean_text_all_stopwords_empty_witness :
    clean_text "The 12 and? THE".data = [] :=
  clean_text_all_stopwords_empty "The 12 and? THE".data (Or.inr (by decide))

/-- C8: `predict_sentiment` is deterministic and stateless — two calls on
identical inputs agree, and the returned label is a pure function of the
classifier's raw output on the vectorized cleaned text. -/
theorem predict_sentiment_deterministic {V : Type} (t : List Char) (m : V → Int)
    (v : List Char → V) :
    predict_sentiment t m v = predict_sentiment t m v ∧
    predict_sentiment t m v = label_of_raw (m (v (clean_text t))) :=
  ⟨rfl, rfl⟩

theorem predict_sentiment_deterministic_witness :
    predict_sentiment "nice day".data (fun r : Int => r) (fun _ => (1 : Int)) =
      predict_sentiment "nice day".data (fun r : Int => r) (fun _ => (1 : Int)) ∧
    predict_sentiment "nice day".data (fun r : Int => r) (fun _ => (1 : Int)) =
      label_of_raw ((fun r : Int => r) ((fun _ => (1 : Int)) (clean_text "nice day".data))) :=
  predict_sentiment_deterministic "nice day".data (fun r => r) (fun _ => (1 : Int))

/-- C9: every output of `clean_text` is a join of nonempty, stopword-free,
all-lowercase-letter tokens separated by single spaces — so it consists
only of lowercase ASCII letters and single space separators, with no
leading or trailing whitespace and no stopword token. -/
theorem clean_text_output_invariant (s : List Char) :
    ∃ toks : List (List Char),
      clean_text s = List.intercalate [' '] toks ∧
      (∀ t ∈ toks, t ≠ [] ∧ (∀ c ∈ t, isLowerLatin c = true) ∧ t ∉ stop_words) ∧
      ∀ c ∈ clean_text s, isLowerLatin c = true ∨ c = ' ' :=
  ⟨cleanTokens s, clean_text_eq_icl s, fun _ ht => cleanTokens_sound ht,
    fun _ hc => clean_text_chars hc⟩

theorem clean_text_output_invariant_witness :
    ∃ toks : List (List Char),
      clean_text "A Cat! and DOG".data = List.intercalate [' '] toks ∧
      (∀ t ∈ toks, t ≠ [] ∧ (∀ c ∈ t, isLowerLatin c = true) ∧ t ∉ stop_words) ∧
      ∀ c ∈ clean_text "A Cat! and DOG".data, isLowerLatin c = true ∨ c = ' ' :=
  clean_text_output_invariant "A Cat! and DOG".data

/-- C10: `login_user` is read-only — the users table after the call is
exactly the table before it, whether the lookup succeeds or fails — and on
success it returns the full stored row (username, name and plaintext
password columns). -/
theorem login_user_readonly (db : List User) (u p : String) :
    (login_user db u p).1 = db ∧
    ∀ r, (login_user db u p).2 = some r → r ∈ db ∧ r.password = p := by
  refine ⟨rfl, fun r hr => ?_⟩
  simp only [login_user] at hr
  have h1 := List.find?_some hr
  simp only [Bool.and_eq_true, beq_iff_eq] at h1
  exact ⟨List.mem_of_find?_eq_some hr, h1.2⟩

theorem login_user_readonly_witness :
    (login_user [⟨"bob", "Bob", "pw2"⟩] "bob" "wrong").1 = [⟨"bob", "Bob", "pw2"⟩] ∧
    ∀ r, (login_user [⟨"bob", "Bob", "pw2"⟩] "bob" "wrong").2 = some r →
      r ∈ [(⟨"bob", "Bob", "pw2"⟩ : User)] ∧ r.password = "wrong" :=
  login_user_readonly [⟨"bob", "Bob", "pw2"⟩] "bob" "wrong"

end SentimentApp
